import Mathlib

/-
  Verification of the ruvector numerical core against its specification.

  The repository ships the CLI (src/npm/packages/ruvector/bin/cli.js) and the
  README; the numerical core itself (the @ruvector/gnn module providing
  RuvectorLayer, TensorCompress, differentiableSearch, getCompressionLevel) is
  not part of the source tree, so those operations are modelled from the
  specification, as noted on each definition.  The CLI dispatch logic
  (gnn compress) is embedded directly from cli.js.

  Machine floats are modelled by exact rationals; the exponential function is
  abstracted as a parameter `e` that the real implementation instantiates with
  exp (a strictly positive function), and the 1/sqrt(headDim) attention scale
  as a parameter `scale`.  Non-finite IEEE values (NaN, Infinity) are modelled
  by the `Val` type so that the codec's finiteness checks are expressible.
-/

namespace Ruvector

/-- The five compression fidelity tiers, as a closed variant per the spec. -/
inductive Tier where
  | Full
  | Half
  | PQ8
  | PQ4
  | Binary
deriving DecidableEq

/-- Modelled from the spec: the Compression Policy of `getCompressionLevel`
(absent from src/; only its CLI caller is present) maps an access frequency to
a tier with the spec's bands, boundaries inclusive on the lower bound of each
band except the top band. -/
def getCompressionLevel (f : ℚ) : Tier :=
  if 0.8 < f then .Full
  else if 0.4 ≤ f then .Half
  else if 0.1 ≤ f then .PQ8
  else if 0.01 ≤ f then .PQ4
  else .Binary

/-- A JavaScript number: either a finite value (modelled exactly by a
rational) or one of the non-finite IEEE values. -/
inductive Val where
  | num (q : ℚ)
  | nan
  | inf
  | ninf
deriving DecidableEq

/-- Finiteness test on a modelled JavaScript number. -/
def Val.isFinite : Val → Bool
  | .num _ => true
  | _ => false

/-- The rational carried by a finite value (0 for non-finite ones; only used
after the finiteness check has passed). -/
def Val.toRat : Val → ℚ
  | .num q => q
  | _ => 0

/-- Error kinds of the codec, per the spec's error-handling design. -/
inductive CompressError where
  | InvalidDimension
  | InvalidValue
  | InvalidConfig
deriving DecidableEq

/-- A compressed tensor: a tagged value whose payload is tier-specific, with
the per-vector metadata (codebook, magnitude) decoding requires. -/
inductive CompressedTensor where
  | full (vals : List ℚ)
  | half (vals : List ℚ)
  | pq (codes : List ℕ) (codebook : List (List ℚ))
  | binary (signs : List Bool) (magnitude : ℚ)
deriving DecidableEq

/-- Modelled from the spec: reduced-precision rounding for the Half tier
(halved per-value bit width), modelled as rounding to a fixed binary grid. -/
def halfRound (x : ℚ) : ℚ :=
  (round (x * 2048) : ℤ) / 2048

/-- Partition a vector into `nChunks` consecutive chunks of length
`chunkLen`. -/
def chunksOf (nChunks chunkLen : ℕ) (l : List ℚ) : List (List ℚ) :=
  (List.range nChunks).map (fun i => (l.drop (i * chunkLen)).take chunkLen)

/-- Squared Euclidean distance between two vectors. -/
def sqDist (a b : List ℚ) : ℚ :=
  (List.zipWith (fun x y => (x - y) * (x - y)) a b).sum

/-- Index of the least element of a list (ties to the lowest index). -/
def argminIdx : List ℚ → ℕ
  | [] => 0
  | [_] => 0
  | x :: y :: ys =>
    let j := argminIdx (y :: ys)
    if x ≤ (y :: ys).getD j 0 then 0 else j + 1

/-- Default centroid count per tier: 256 codes for PQ8, 16 for the narrower
PQ4 code width. -/
def tierCentroids : Tier → ℕ
  | .PQ4 => 16
  | _ => 256

/-- Modelled from the spec: the encode half of the Quantization Codec (absent
from src/).  Checks run in the spec's order (configuration errors are rejected
before any computation starts, after the emptiness shape check): empty vector,
PQ divisibility, non-finite values; then encodes per tier.  Full stores the
values; Half rounds each value to reduced precision; PQ8/PQ4 partition the
vector into `subvectors` chunks, assign the codebook from the data's own
chunks capped at the centroid count, and store the nearest-codebook index per
chunk; Binary stores one sign bit per dimension plus a single scalar
magnitude. -/
def compressCore (v : List Val) (tier : Tier) (subvectors centroids : ℕ) :
    Except CompressError CompressedTensor :=
  if v = [] then .error .InvalidDimension
  else if (tier = .PQ8 ∨ tier = .PQ4) ∧ v.length % subvectors ≠ 0 then
    .error .InvalidConfig
  else if ¬ v.all Val.isFinite then .error .InvalidValue
  else
    let vals := v.map Val.toRat
    match tier with
    | .Full => .ok (.full vals)
    | .Half => .ok (.half (vals.map halfRound))
    | .PQ8 | .PQ4 =>
      let chunkLen := vals.length / subvectors
      let chunks := chunksOf subvectors chunkLen vals
      let codebook := chunks.take centroids
      let codes := chunks.map (fun c => argminIdx (codebook.map (sqDist c)))
      .ok (.pq codes codebook)
    | .Binary =>
      let mag := (vals.map (fun x => |x|)).sum / (vals.length : ℚ)
      .ok (.binary (vals.map (fun x => decide (0 ≤ x))) mag)

/-- Modelled from the spec: `compress(vector, tier)` with the default codec
parameters (8 subvectors; 256 centroids for PQ8, 16 for PQ4). -/
def compress (v : List Val) (tier : Tier) : Except CompressError CompressedTensor :=
  compressCore v tier 8 (tierCentroids tier)

/-- Modelled from the spec: `decompress` reconstructs an embedding from a
compressed tensor, failing only if a PQ code falls outside the codebook. -/
def decompress : CompressedTensor → Option (List ℚ)
  | .full vals => some vals
  | .half vals => some vals
  | .pq codes codebook =>
    if codes.all (fun i => decide (i < codebook.length)) then
      some ((codes.map (fun i => codebook.getD i [])).flatten)
    else none
  | .binary signs mag => some (signs.map (fun s => if s then mag else -mag))

/-- The level strings the codec accepts, mapped to tiers; full precision is
named "none" in the string-level API (per the CLI's level listing). -/
def resolveLevelType : String → Option Tier
  | "none" => some .Full
  | "half" => some .Half
  | "pq8" => some .PQ8
  | "pq4" => some .PQ4
  | "binary" => some .Binary
  | _ => none

/-- A compression level configuration, as the CLI passes it to
`compressWithLevel`: a level-type string plus optional codec parameters. -/
structure LevelConfig where
  levelType : String
  subvectors : Option ℕ := none
  centroids : Option ℕ := none
deriving DecidableEq

/-- Modelled from the spec: `compressWithLevel` resolves the level-type string
(unknown strings are a configuration error) and runs the codec with the
configured or default parameters. -/
def compressWithLevel (v : List Val) (cfg : LevelConfig) :
    Except CompressError CompressedTensor :=
  match resolveLevelType cfg.levelType with
  | none => .error .InvalidConfig
  | some tier => compressCore v tier (cfg.subvectors.getD 8) (cfg.centroids.getD (tierCentroids tier))

/-- Modelled from the spec: `TensorCompress.compress(vec, accessFreq)` rejects
an out-of-range frequency with InvalidValue and otherwise delegates to the
Compression Policy before encoding. -/
def tensorCompress (v : List Val) (freq : ℚ) : Except CompressError CompressedTensor :=
  if freq < 0 ∨ 1 < freq then .error .InvalidValue
  else compress v (getCompressionLevel freq)

/-- The level config the CLI `gnn compress` command builds (cli.js lines
743-750): the level string verbatim, with subvectors fixed to 8 for pq8 and
pq4 and centroids fixed to 256 for pq8. -/
def mkLevelConfig (level : String) : LevelConfig :=
  if level = "pq8" then { levelType := level, subvectors := some 8, centroids := some 256 }
  else if level = "pq4" then { levelType := level, subvectors := some 8 }
  else { levelType := level }

/-- Default of the CLI `--level` flag (cli.js line 716). -/
def defaultLevel : String := "auto"

/-- Default of the CLI `--access-freq` flag (cli.js line 717). -/
def defaultAccessFreq : ℚ := 0.5

/-- The per-embedding dispatch of the CLI `gnn compress` command (cli.js lines
739-751): the exact string "auto" routes through the frequency-based
`compress`; every other level string is forwarded in a level config to
`compressWithLevel`. -/
def gnnCompressOne (level : String) (accessFreq : ℚ) (v : List Val) :
    Except CompressError CompressedTensor :=
  if level = "auto" then tensorCompress v accessFreq
  else compressWithLevel v (mkLevelConfig level)

/-- Dot product of two vectors. -/
def dot (a b : List ℚ) : ℚ :=
  (List.zipWith (· * ·) a b).sum

/-- Maximum of a list of rationals (0 for the empty list). -/
def maxList : List ℚ → ℚ
  | [] => 0
  | [x] => x
  | x :: y :: ys => max x (maxList (y :: ys))

/-- A computable stand-in with the two properties of the exponential that the
claims rely on: strict positivity and strict monotonicity.  Used to
instantiate theorems that hold for every such function, the real exp
included. -/
def expModel (x : ℚ) : ℚ :=
  if 0 ≤ x then x + 1 else 1 / (1 - x)

/-- Numerically-stable temperature-scaled softmax, the exponential abstracted
as `e`: subtract the maximum score, scale by 1/temperature, exponentiate and
normalize. -/
def softmaxProbs (e : ℚ → ℚ) (t : ℚ) (scores : List ℚ) : List ℚ :=
  let m := maxList scores
  let exps := scores.map (fun s => e ((s - m) / t))
  let z := exps.sum
  exps.map (fun x => x / z)

/-- Probability of index `i` in a probability list (0 out of range). -/
def pAt (p : List ℚ) (i : ℕ) : ℚ := p.getD i 0

/-- Ranking comparator for soft top-k selection: higher probability first,
ties broken by the lower original index. -/
def rankLEb (p : List ℚ) (i j : ℕ) : Bool :=
  decide (pAt p j < pAt p i) || (decide (pAt p i = pAt p j) && decide (i ≤ j))

/-- Candidate indices sorted by descending probability, ties by lowest
index. -/
def searchOrder (p : List ℚ) (n : ℕ) : List ℕ :=
  List.insertionSort (fun i j => rankLEb p i j = true) (List.range n)

/-- Error kinds of differentiable search, per the spec. -/
inductive SearchError where
  | InvalidConfig
  | EmptyCandidateSet
  | DimensionMismatch
deriving DecidableEq

/-- Result of differentiable search: candidate indices in descending-weight
order with their renormalized weights. -/
structure SearchResult where
  indices : List ℕ
  weights : List ℚ
deriving DecidableEq

/-- Modelled from the spec: `differentiableSearch` (absent from src/; only its
CLI caller is present).  Scores every candidate by dot product with the query,
applies the stable temperature-scaled softmax, selects the k candidates of
highest probability mass (ties to the lowest original index) and renormalizes
the selected probabilities to sum to exactly 1. -/
def differentiableSearch (e : ℚ → ℚ) (q : List ℚ) (cands : List (List ℚ))
    (k : ℕ) (t : ℚ) : SearchResult :=
  let scores := cands.map (fun c => dot q c)
  let probs := softmaxProbs e t scores
  let order := searchOrder probs cands.length
  let sel := order.take k
  let s := (sel.map (pAt probs)).sum
  { indices := sel, weights := sel.map (fun i => pAt probs i / s) }

/-- Modelled from the spec: the validated entry point of differentiable
search.  The configuration check precedes any computation; then the empty
candidate set and candidate dimensions are checked. -/
def differentiableSearchChecked (e : ℚ → ℚ) (q : List ℚ) (cands : List (List ℚ))
    (k : ℕ) (t : ℚ) : Except SearchError SearchResult :=
  if t ≤ 0 then .error .InvalidConfig
  else if cands = [] then .error .EmptyCandidateSet
  else if cands.any (fun c => c.length != q.length) then .error .DimensionMismatch
  else .ok (differentiableSearch e q cands k t)

/-- A multi-head graph-attention layer: its configuration and the learned
query/key/value/output projection matrices, immutable after construction. -/
structure RuvectorLayer where
  inputDim : ℕ
  hiddenDim : ℕ
  heads : ℕ
  dropoutRate : ℚ
  wq : List (List ℚ)
  wk : List (List ℚ)
  wv : List (List ℚ)
  wo : List (List ℚ)

/-- A `rows × cols` matrix with entries given by `f`. -/
def mkMatrix (rows cols : ℕ) (f : ℕ → ℕ → ℚ) : List (List ℚ) :=
  (List.range rows).map (fun r => (List.range cols).map (fun c => f r c))

/-- Modelled from the spec: `construct_layer` builds a layer whose projection
matrices are sized from the configuration; the initializer `f` abstracts the
(externally chosen) learned/initial parameter values. -/
def construct_layer (inputDim hiddenDim heads : ℕ) (dropoutRate : ℚ)
    (f : ℕ → ℕ → ℕ → ℚ) : RuvectorLayer :=
  { inputDim := inputDim, hiddenDim := hiddenDim, heads := heads,
    dropoutRate := dropoutRate,
    wq := mkMatrix hiddenDim inputDim (f 0),
    wk := mkMatrix hiddenDim inputDim (f 1),
    wv := mkMatrix hiddenDim inputDim (f 2),
    wo := mkMatrix hiddenDim hiddenDim (f 3) }

/-- Matrix-vector product (rows list the output coordinates). -/
def matVec (m : List (List ℚ)) (x : List ℚ) : List ℚ :=
  m.map (fun row => dot row x)

/-- The slice of a projected vector belonging to head `h`. -/
def headSlice (headDim h : ℕ) (x : List ℚ) : List ℚ :=
  (x.drop (h * headDim)).take headDim

/-- Componentwise sum of two vectors. -/
def addVec (a b : List ℚ) : List ℚ :=
  List.zipWith (· + ·) a b

/-- The self-attention-only path: the query through the value and output
projections alone, used when the neighborhood is empty. -/
def selfAttentionForward (layer : RuvectorLayer) (q : List ℚ) : List ℚ :=
  matVec layer.wo (matVec layer.wv q)

/-- Modelled from the spec: the forward pass of the attention layer (absent
from src/; only its CLI caller is present).  An empty neighborhood takes the
self-attention-only path.  Otherwise the query and each neighbor are projected
and split across heads; per head, raw scores are scaled dot products
multiplied by the edge weights, put through the stable softmax, optionally
dropout-masked and renormalized (only when the dropout rate is positive; the
mask is the explicit injectable randomness source), and used to weight the
projected neighbor values; head outputs are concatenated and sent through the
output projection.  The exponential is abstracted as `e` and the
1/sqrt(headDim) factor as `scale`. -/
def forward (e : ℚ → ℚ) (scale : ℚ) (layer : RuvectorLayer)
    (mask : ℕ → ℕ → Bool) (q : List ℚ) (neighbors : List (List ℚ))
    (edgeWeights : List ℚ) : List ℚ :=
  if neighbors = [] then selfAttentionForward layer q
  else
    let headDim := layer.hiddenDim / layer.heads
    let pq := matVec layer.wq q
    let pks := neighbors.map (matVec layer.wk)
    let pvs := neighbors.map (matVec layer.wv)
    let headOut := fun (h : ℕ) =>
      let qh := headSlice headDim h pq
      let scores := List.zipWith
        (fun kv w => dot qh (headSlice headDim h kv) * scale * w) pks edgeWeights
      let m := maxList scores
      let exps := scores.map (fun s => e (s - m))
      let z := exps.sum
      let probs := exps.map (fun x => x / z)
      let probs2 :=
        if 0 < layer.dropoutRate then
          let kept := probs.enum.map (fun jp => if mask h jp.1 then jp.2 else 0)
          let z2 := kept.sum
          if z2 = 0 then kept else kept.map (fun x => x / z2)
        else probs
      let vhs := pvs.map (headSlice headDim h)
      (List.zipWith (fun p vh => vh.map (fun x => p * x)) probs2 vhs).foldr
        addVec (List.replicate headDim 0)
    let concatHeads := ((List.range layer.heads).map headOut).flatten
    matVec layer.wo concatHeads

/-- A layer with all four projection matrices constantly filled, used by
concrete instances. -/
def constLayer (inputDim hiddenDim heads : ℕ) (r : ℚ) : RuvectorLayer :=
  construct_layer inputDim hiddenDim heads r (fun _ _ _ => 1)

/-- The all-keep dropout mask. -/
def maskKeepAll : ℕ → ℕ → Bool := fun _ _ => true

/-- The all-drop dropout mask. -/
def maskDropAll : ℕ → ℕ → Bool := fun _ _ => false


/- ------------------------------------------------------------------ -/
/- Helper lemmas                                                      -/
/- ------------------------------------------------------------------ -/

theorem expModel_pos (x : ℚ) : 0 < expModel x := by
  unfold expModel
  split_ifs with h
  · linarith
  · have h1 : (0:ℚ) < 1 - x := by push_neg at h; linarith
    exact div_pos one_pos h1

theorem argminIdx_lt_length (l : List ℚ) (h : l ≠ []) : argminIdx l < l.length := by
  induction l with
  | nil => exact absurd rfl h
  | cons x xs ih =>
    cases xs with
    | nil => simp [argminIdx]
    | cons y ys =>
      show argminIdx (x :: y :: ys) < (y :: ys).length + 1
      rw [argminIdx]
      split_ifs
      · exact Nat.succ_pos _
      · exact Nat.succ_lt_succ (ih (by simp))


theorem list_sum_map_div (l : List ℕ) (f : ℕ → ℚ) (c : ℚ) :
    (l.map (fun x => f x / c)).sum = (l.map f).sum / c := by
  induction l with
  | nil => simp
  | cons x xs ih => simp [ih, add_div]

theorem zip_map_self {α β : Type} (l : List α) (f : α → β) :
    l.zip (l.map f) = l.map (fun a => (a, f a)) := by
  induction l with
  | nil => rfl
  | cons x xs ih => simp [ih]

/- ------------------------------------------------------------------ -/
/- C1: the compression policy bands                                   -/
/- ------------------------------------------------------------------ -/

/-- C1 counterexample: the claimed bands overlap at frequency 0.01 — it lies
in the claimed PQ4 band [0.01, 0.1) and in the claimed Binary band (≤ 0.01)
at once, and the policy (lower bounds inclusive, as the claim itself states)
selects PQ4 there, contradicting the claim's Binary conjunct. -/
theorem C1_counterexample :
    (0:ℚ) ≤ 0.01 ∧ (0.01:ℚ) ≤ 1 ∧ (0.01:ℚ) ≤ 0.01 ∧
    getCompressionLevel 0.01 = Tier.PQ4 ∧ Tier.PQ4 ≠ Tier.Binary := by
  refine ⟨by norm_num, by norm_num, le_refl _, ?_, by decide⟩
  unfold getCompressionLevel
  split_ifs with h1 h2 h3 h4
  · exfalso; norm_num at h1
  · exfalso; norm_num at h2
  · exfalso; norm_num at h3
  · rfl
  · exfalso; exact h4 (by norm_num)

/-- C1 (amended): for every access frequency in [0,1] the policy selects the
tier of its band — Full on (0.8, 1], Half on [0.4, 0.8], PQ8 on [0.1, 0.4),
PQ4 on [0.01, 0.1), Binary on [0, 0.01) — every band inclusive on its lower
bound except the top band; amendment: the Binary band is f < 0.01, not
f ≤ 0.01, since 0.01 belongs to the lower-inclusive PQ4 band.  In particular
0.05 selects PQ4, 0.85 selects Full and 0.0 selects Binary. -/
theorem C1_policy_bands (f : ℚ) (h0 : 0 ≤ f) (h1 : f ≤ 1) :
    (0.8 < f → getCompressionLevel f = Tier.Full) ∧
    (0.4 ≤ f ∧ f ≤ 0.8 → getCompressionLevel f = Tier.Half) ∧
    (0.1 ≤ f ∧ f < 0.4 → getCompressionLevel f = Tier.PQ8) ∧
    (0.01 ≤ f ∧ f < 0.1 → getCompressionLevel f = Tier.PQ4) ∧
    (f < 0.01 → getCompressionLevel f = Tier.Binary) ∧
    getCompressionLevel 0.05 = Tier.PQ4 ∧
    getCompressionLevel 0.85 = Tier.Full ∧
    getCompressionLevel 0 = Tier.Binary := by
  refine ⟨?_, ?_, ?_, ?_, ?_, ?_, ?_, ?_⟩
  · intro h
    unfold getCompressionLevel
    rw [if_pos h]
  · rintro ⟨ha, hb⟩
    unfold getCompressionLevel
    rw [if_neg (by linarith), if_pos ha]
  · rintro ⟨ha, hb⟩
    unfold getCompressionLevel
    rw [if_neg (by linarith), if_neg (by linarith), if_pos ha]
  · rintro ⟨ha, hb⟩
    unfold getCompressionLevel
    rw [if_neg (by linarith), if_neg (by linarith), if_neg (by linarith), if_pos ha]
  · intro h
    unfold getCompressionLevel
    rw [if_neg (by linarith), if_neg (by linarith), if_neg (by linarith),
      if_neg (by linarith)]
  · unfold getCompressionLevel
    rw [if_neg (by norm_num), if_neg (by norm_num), if_neg (by norm_num),
      if_pos (by norm_num)]
  · unfold getCompressionLevel
    rw [if_pos (by norm_num)]
  · unfold getCompressionLevel
    rw [if_neg (by norm_num), if_neg (by norm_num), if_neg (by norm_num),
      if_neg (by norm_num)]

/-- C1 witness: the amended band theorem applied at frequency 1/2. -/
theorem C1_policy_bands_witness :
    (0:ℚ) ≤ 1/2 ∧ (1/2:ℚ) ≤ 1 ∧ getCompressionLevel (1/2) = Tier.Half :=
  ⟨by norm_num, by norm_num,
    (C1_policy_bands (1/2) (by norm_num) (by norm_num)).2.1 ⟨by norm_num, by norm_num⟩⟩


/- ------------------------------------------------------------------ -/
/- Codec round trip and error handling (C4)                           -/
/- ------------------------------------------------------------------ -/

theorem compress_ok (v : List Val) (tier : Tier)
    (hne : v ≠ []) (hfin : v.all Val.isFinite = true)
    (hdiv : (tier = .PQ8 ∨ tier = .PQ4) → v.length % 8 = 0) :
    ∃ ct, compress v tier = .ok ct ∧ (decompress ct).isSome := by
  have hc2 : ¬ ((tier = Tier.PQ8 ∨ tier = Tier.PQ4) ∧ v.length % 8 ≠ 0) := by
    rintro ⟨ha, hb⟩
    exact hb (hdiv ha)
  have hc3 : ¬ ¬ v.all Val.isFinite = true := not_not_intro hfin
  unfold compress compressCore
  rw [if_neg hne, if_neg hc2, if_neg hc3]
  cases tier with
  | Full => exact ⟨_, rfl, rfl⟩
  | Half => exact ⟨_, rfl, rfl⟩
  | Binary => exact ⟨_, rfl, rfl⟩
  | PQ8 =>
    refine ⟨_, rfl, ?_⟩
    simp only [decompress]
    rw [if_pos]
    · rfl
    · rw [List.all_eq_true]
      intro i hi
      rw [List.mem_map] at hi
      obtain ⟨c, _, rfl⟩ := hi
      rw [decide_eq_true_eq]
      have hcb : ((chunksOf 8 ((v.map Val.toRat).length / 8) (v.map Val.toRat)).take 256) ≠ [] := by
        rw [ne_eq, List.take_eq_nil_iff]
        rintro (h | h)
        · exact absurd h (by norm_num)
        · have := congrArg List.length h
          simp [chunksOf] at this
      have := argminIdx_lt_length
        (((chunksOf 8 ((v.map Val.toRat).length / 8) (v.map Val.toRat)).take 256).map (sqDist c))
        (by simpa using hcb)
      simpa using this
  | PQ4 =>
    refine ⟨_, rfl, ?_⟩
    simp only [decompress]
    rw [if_pos]
    · rfl
    · rw [List.all_eq_true]
      intro i hi
      rw [List.mem_map] at hi
      obtain ⟨c, _, rfl⟩ := hi
      rw [decide_eq_true_eq]
      have hcb : ((chunksOf 8 ((v.map Val.toRat).length / 8) (v.map Val.toRat)).take 16) ≠ [] := by
        rw [ne_eq, List.take_eq_nil_iff]
        rintro (h | h)
        · exact absurd h (by norm_num)
        · have := congrArg List.length h
          simp [chunksOf] at this
      have := argminIdx_lt_length
        (((chunksOf 8 ((v.map Val.toRat).length / 8) (v.map Val.toRat)).take 16).map (sqDist c))
        (by simpa using hcb)
      simpa using this

/-- C4 counterexample: the claim asserts InvalidValue whenever a value is
non-finite, but at the one-element NaN vector under PQ8 the divisibility check
(a configuration error, rejected before any computation starts) fires first
and the result is InvalidConfig. -/
theorem C4_counterexample :
    compress [Val.nan] Tier.PQ8 = .error .InvalidConfig ∧
    Val.nan.isFinite = false ∧
    CompressError.InvalidConfig ≠ CompressError.InvalidValue := by
  exact ⟨rfl, rfl, by decide⟩

/-- C4 (amended): compress followed by decompress never fails for a finite
non-empty vector meeting the PQ divisibility precondition; compress fails with
InvalidDimension exactly on the empty vector, with InvalidConfig for PQ8/PQ4
when the length is not divisible by the subvector count, and with InvalidValue
when some value is non-finite — amendment: the InvalidValue outcome holds
provided the PQ divisibility precondition is met, since configuration errors
are detected first; decompress succeeds on every tensor compress produces. -/
theorem C4_compress_errors (v : List Val) (tier : Tier) :
    (v ≠ [] → v.all Val.isFinite = true →
      ((tier = .PQ8 ∨ tier = .PQ4) → v.length % 8 = 0) →
      ∃ ct, compress v tier = .ok ct ∧ (decompress ct).isSome) ∧
    (v = [] → compress v tier = .error .InvalidDimension) ∧
    ((tier = .PQ8 ∨ tier = .PQ4) → v.length % 8 ≠ 0 →
      compress v tier = .error .InvalidConfig) ∧
    (v ≠ [] → ¬ v.all Val.isFinite = true →
      ((tier = .PQ8 ∨ tier = .PQ4) → v.length % 8 = 0) →
      compress v tier = .error .InvalidValue) := by
  refine ⟨compress_ok v tier, ?_, ?_, ?_⟩
  · intro h
    unfold compress compressCore
    rw [if_pos h]
  · intro ht hl
    have hne : v ≠ [] := by
      intro h
      apply hl
      rw [h]
      rfl
    unfold compress compressCore
    rw [if_neg hne, if_pos ⟨ht, hl⟩]
  · intro hne hfin hdiv
    have hc2 : ¬ ((tier = Tier.PQ8 ∨ tier = Tier.PQ4) ∧ v.length % 8 ≠ 0) := by
      rintro ⟨ha, hb⟩
      exact hb (hdiv ha)
    unfold compress compressCore
    rw [if_neg hne, if_neg hc2, if_pos hfin]

/-- C4 witness: the amended theorem applied to a concrete finite 8-element
vector under PQ8, and to its non-finite and non-divisible variants. -/
theorem C4_compress_errors_witness :
    ([Val.num 1, Val.num 2, Val.num 3, Val.num 4,
      Val.num 5, Val.num 6, Val.num 7, Val.num 8] : List Val) ≠ [] ∧
    ([Val.num 1, Val.num 2, Val.num 3, Val.num 4,
      Val.num 5, Val.num 6, Val.num 7, Val.num 8].all Val.isFinite = true) ∧
    (∃ ct, compress [Val.num 1, Val.num 2, Val.num 3, Val.num 4,
      Val.num 5, Val.num 6, Val.num 7, Val.num 8] Tier.PQ8 = .ok ct ∧
      (decompress ct).isSome) :=
  ⟨by simp, by rfl,
    (C4_compress_errors _ Tier.PQ8).1 (by simp) (by rfl) (fun _ => by rfl)⟩

/- ------------------------------------------------------------------ -/
/- CLI gnn compress dispatch (C9, C10)                                -/
/- ------------------------------------------------------------------ -/

/-- C9: with an explicit pq8 or pq4 level the CLI always passes subvectors = 8
(and centroids = 256 for pq8) regardless of the input vector, and any vector
whose length is not a multiple of 8 is rejected by the codec divisibility rule
rather than compressed. -/
theorem C9_cli_pq_subvectors (level : String) (freq : ℚ) (v : List Val)
    (hl : level = "pq8" ∨ level = "pq4") :
    (mkLevelConfig level).subvectors = some 8 ∧
    (level = "pq8" → (mkLevelConfig level).centroids = some 256) ∧
    gnnCompressOne level freq v = compressWithLevel v (mkLevelConfig level) ∧
    (v.length % 8 ≠ 0 → gnnCompressOne level freq v = .error .InvalidConfig) := by
  have hne : v.length % 8 ≠ 0 → v ≠ [] := by
    intro hmod h
    apply hmod
    rw [h]
    rfl
  rcases hl with h | h <;> subst h
  · refine ⟨rfl, fun _ => rfl, rfl, fun hmod => ?_⟩
    show compressWithLevel v (mkLevelConfig "pq8") = .error .InvalidConfig
    show compressCore v Tier.PQ8 8 256 = .error .InvalidConfig
    unfold compressCore
    rw [if_neg (hne hmod), if_pos ⟨Or.inl rfl, hmod⟩]
  · refine ⟨rfl, fun hc => absurd hc (by decide), rfl, fun hmod => ?_⟩
    show compressWithLevel v (mkLevelConfig "pq4") = .error .InvalidConfig
    show compressCore v Tier.PQ4 8 16 = .error .InvalidConfig
    unfold compressCore
    rw [if_neg (hne hmod), if_pos ⟨Or.inr rfl, hmod⟩]

/-- C9 witness: the theorem applied at level pq4 and a length-1 vector. -/
theorem C9_cli_pq_subvectors_witness :
    (("pq4" : String) = "pq8" ∨ ("pq4" : String) = "pq4") ∧
    ([Val.num 1] : List Val).length % 8 ≠ 0 ∧
    gnnCompressOne "pq4" (1/2) [Val.num 1] = .error .InvalidConfig :=
  ⟨Or.inr rfl, by decide,
    (C9_cli_pq_subvectors "pq4" (1/2) [Val.num 1] (Or.inr rfl)).2.2.2 (by decide)⟩

/-- C10: the CLI dispatches on the exact string "auto" — only that value
routes through the frequency-based policy, the access frequency defaults to
0.5, every other level string (unknown ones included) is forwarded verbatim
and unvalidated as the levelType of the config given to compressWithLevel,
and full precision is requestable only under the name "none", not "full". -/
theorem C10_cli_auto_dispatch (v : List Val) (freq : ℚ) (level : String)
    (hne : level ≠ "auto") :
    gnnCompressOne "auto" freq v = tensorCompress v freq ∧
    defaultLevel = "auto" ∧
    defaultAccessFreq = 1/2 ∧
    gnnCompressOne level freq v = compressWithLevel v (mkLevelConfig level) ∧
    (mkLevelConfig level).levelType = level ∧
    resolveLevelType "none" = some Tier.Full ∧
    resolveLevelType "full" = none := by
  refine ⟨rfl, rfl, by norm_num [defaultAccessFreq], ?_, ?_, rfl, rfl⟩
  · unfold gnnCompressOne
    rw [if_neg hne]
  · unfold mkLevelConfig
    split_ifs <;> rfl

/-- C10 witness: the theorem applied at the unvalidated level string "full",
which the codec then rejects rather than treating as full precision. -/
theorem C10_cli_auto_dispatch_witness :
    ("full" : String) ≠ "auto" ∧
    gnnCompressOne "full" (1/2) [Val.num 1] =
      compressWithLevel [Val.num 1] (mkLevelConfig "full") ∧
    resolveLevelType "full" = none :=
  ⟨by decide,
    (C10_cli_auto_dispatch [Val.num 1] (1/2) "full" (by decide)).2.2.2.1,
    (C10_cli_auto_dispatch [Val.num 1] (1/2) "full" (by decide)).2.2.2.2.2.2⟩



/- ------------------------------------------------------------------ -/
/- Differentiable search (C3, C5)                                     -/
/- ------------------------------------------------------------------ -/

theorem rankLEb_iff (p : List ℚ) (i j : ℕ) :
    rankLEb p i j = true ↔ (pAt p j < pAt p i ∨ (pAt p i = pAt p j ∧ i ≤ j)) := by
  simp [rankLEb]

theorem rankLEb_total (p : List ℚ) :
    ∀ i j, rankLEb p i j = true ∨ rankLEb p j i = true := by
  intro i j
  rw [rankLEb_iff, rankLEb_iff]
  rcases lt_trichotomy (pAt p i) (pAt p j) with h | h | h
  · exact Or.inr (Or.inl h)
  · rcases Nat.le_total i j with hij | hij
    · exact Or.inl (Or.inr ⟨h, hij⟩)
    · exact Or.inr (Or.inr ⟨h.symm, hij⟩)
  · exact Or.inl (Or.inl h)

theorem rankLEb_trans (p : List ℚ) :
    ∀ i j l, rankLEb p i j = true → rankLEb p j l = true → rankLEb p i l = true := by
  intro i j l hij hjl
  rw [rankLEb_iff] at hij hjl ⊢
  rcases hij with h1 | ⟨h1, h1le⟩ <;> rcases hjl with h2 | ⟨h2, h2le⟩
  · exact Or.inl (by linarith)
  · exact Or.inl (by linarith)
  · exact Or.inl (by linarith)
  · exact Or.inr ⟨by linarith, Nat.le_trans h1le h2le⟩

theorem searchOrder_sorted (p : List ℚ) (n : ℕ) :
    List.Pairwise (fun i j => rankLEb p i j = true) (searchOrder p n) := by
  unfold searchOrder
  haveI h1 : IsTotal ℕ (fun i j => rankLEb p i j = true) := ⟨rankLEb_total p⟩
  haveI h2 : IsTrans ℕ (fun i j => rankLEb p i j = true) := ⟨rankLEb_trans p⟩
  exact List.sorted_insertionSort _ _

theorem searchOrder_perm (p : List ℚ) (n : ℕ) :
    (searchOrder p n).Perm (List.range n) :=
  List.perm_insertionSort _ _

theorem softmaxProbs_length (e : ℚ → ℚ) (t : ℚ) (scores : List ℚ) :
    (softmaxProbs e t scores).length = scores.length := by
  simp [softmaxProbs]

theorem softmaxProbs_pos (e : ℚ → ℚ) (he : ∀ x, 0 < e x) (t : ℚ) (scores : List ℚ)
    (hs : scores ≠ []) : ∀ x ∈ softmaxProbs e t scores, 0 < x := by
  have hz : 0 < (scores.map (fun s => e ((s - maxList scores) / t))).sum := by
    apply List.sum_pos
    · intro y hy
      rw [List.mem_map] at hy
      obtain ⟨s, _, rfl⟩ := hy
      exact he _
    · simpa using hs
  intro x hx
  unfold softmaxProbs at hx
  simp only [List.mem_map] at hx
  obtain ⟨y, ⟨s, hs1, rfl⟩, rfl⟩ := hx
  exact div_pos (he _) hz

theorem pAt_pos (p : List ℚ) (hp : ∀ x ∈ p, 0 < x) (i : ℕ) (hi : i < p.length) :
    0 < pAt p i := by
  unfold pAt
  rw [List.getD_eq_getElem p 0 hi]
  exact hp _ (List.getElem_mem hi)

theorem searchSpec (e : ℚ → ℚ) (he : ∀ x, 0 < e x) (q : List ℚ)
    (cands : List (List ℚ)) (k : ℕ) (t : ℚ) (hc : cands ≠ []) (hk : 0 < k) :
    (differentiableSearch e q cands k t).indices.length = min k cands.length ∧
    (differentiableSearch e q cands k t).weights.length = min k cands.length ∧
    (∀ w ∈ (differentiableSearch e q cands k t).weights, 0 ≤ w) ∧
    (differentiableSearch e q cands k t).weights.sum = 1 ∧
    (∀ i ∈ (differentiableSearch e q cands k t).indices, i < cands.length) ∧
    ((differentiableSearch e q cands k t).indices.zip
        (differentiableSearch e q cands k t).weights).Pairwise
      (fun a b => b.2 < a.2 ∨ (a.2 = b.2 ∧ a.1 < b.1)) := by
  set P := softmaxProbs e t (cands.map (fun c => dot q c)) with hP
  set ord := searchOrder P cands.length with hord
  set sel := ord.take k with hsel
  set S := (sel.map (pAt P)).sum with hS
  have hds : differentiableSearch e q cands k t =
      ⟨sel, sel.map (fun i => pAt P i / S)⟩ := rfl
  rw [hds]
  have hn : 0 < cands.length := List.length_pos.mpr hc
  have hPlen : P.length = cands.length := by
    rw [hP, softmaxProbs_length, List.length_map]
  have hPpos : ∀ x ∈ P, 0 < x := by
    rw [hP]
    exact softmaxProbs_pos e he t _ (by simpa using hc)
  have hperm : ord.Perm (List.range cands.length) := searchOrder_perm P cands.length
  have hordlen : ord.length = cands.length := by
    rw [hperm.length_eq, List.length_range]
  have hselsub : sel.Sublist ord := List.take_sublist k ord
  have hsellen : sel.length = min k cands.length := by
    rw [hsel, List.length_take, hordlen]
  have hmem : ∀ i ∈ sel, i < cands.length := by
    intro i hi
    exact List.mem_range.mp (hperm.mem_iff.mp (hselsub.subset hi))
  have hselpos : ∀ i ∈ sel, 0 < pAt P i := by
    intro i hi
    exact pAt_pos P hPpos i (by rw [hPlen]; exact hmem i hi)
  have hselne : sel ≠ [] := by
    apply List.ne_nil_of_length_pos
    rw [hsellen]
    omega
  have hSpos : 0 < S := by
    rw [hS]
    apply List.sum_pos
    · intro x hx
      rw [List.mem_map] at hx
      obtain ⟨i, hi, rfl⟩ := hx
      exact hselpos i hi
    · simpa using hselne
  refine ⟨hsellen, ?_, ?_, ?_, hmem, ?_⟩
  · rw [List.length_map]
    exact hsellen
  · intro w hw
    rw [List.mem_map] at hw
    obtain ⟨i, hi, rfl⟩ := hw
    exact le_of_lt (div_pos (hselpos i hi) hSpos)
  · rw [list_sum_map_div, ← hS, div_self (ne_of_gt hSpos)]
  · rw [zip_map_self, List.pairwise_map]
    have hsorted : List.Pairwise (fun i j => rankLEb P i j = true) sel :=
      List.Pairwise.sublist hselsub (searchOrder_sorted P cands.length)
    have hnd : sel.Nodup :=
      hselsub.nodup (hperm.nodup_iff.mpr (List.nodup_range _))
    refine (hsorted.and hnd).imp ?_
    intro i j hp2
    obtain ⟨hr, hne2⟩ := hp2
    rw [rankLEb_iff] at hr
    rcases hr with h | ⟨heq, hle⟩
    · exact Or.inl ((div_lt_div_iff_of_pos_right hSpos).mpr h)
    · exact Or.inr ⟨by rw [heq], lt_of_le_of_ne hle hne2⟩

theorem search_perm_of_lt (e : ℚ → ℚ) (q : List ℚ) (cands : List (List ℚ))
    (k : ℕ) (t : ℚ) (hkgt : cands.length < k) :
    (differentiableSearch e q cands k t).indices.Perm (List.range cands.length) := by
  have hperm := searchOrder_perm (softmaxProbs e t (cands.map (fun c => dot q c))) cands.length
  have hlen : (searchOrder (softmaxProbs e t (cands.map (fun c => dot q c)))
      cands.length).length = cands.length := by
    rw [hperm.length_eq, List.length_range]
  show ((searchOrder (softmaxProbs e t (cands.map (fun c => dot q c)))
      cands.length).take k).Perm (List.range cands.length)
  rw [List.take_of_length_le (by rw [hlen]; exact le_of_lt hkgt)]
  exact hperm

/-- C3: for a positive strictly-positive exponential model, a non-empty
candidate set of the query's dimension, k > 0 and temperature > 0, the search
returns indices and weights of length min(k, number of candidates), the
weights non-negative and summing to 1, the indices valid positions into the
candidate sequence, ordered by descending weight with ties broken by the
lowest original index. -/
theorem C3_search_result_contract (e : ℚ → ℚ) (he : ∀ x, 0 < e x) (q : List ℚ)
    (cands : List (List ℚ)) (k : ℕ) (t : ℚ) (hc : cands ≠ [])
    (hdim : ∀ c ∈ cands, c.length = q.length) (hk : 0 < k) (ht : 0 < t) :
    (differentiableSearch e q cands k t).indices.length = min k cands.length ∧
    (differentiableSearch e q cands k t).weights.length = min k cands.length ∧
    (∀ w ∈ (differentiableSearch e q cands k t).weights, 0 ≤ w) ∧
    (differentiableSearch e q cands k t).weights.sum = 1 ∧
    (∀ i ∈ (differentiableSearch e q cands k t).indices, i < cands.length) ∧
    ((differentiableSearch e q cands k t).indices.zip
        (differentiableSearch e q cands k t).weights).Pairwise
      (fun a b => b.2 < a.2 ∨ (a.2 = b.2 ∧ a.1 < b.1)) :=
  searchSpec e he q cands k t hc hk

/-- C3 witness: three candidates with k = 5 yield exactly 3 results whose
weights sum to 1. -/
theorem C3_search_result_contract_witness :
    (([[1], [2], [3]] : List (List ℚ)) ≠ []) ∧ (0:ℕ) < 5 ∧ (0:ℚ) < 1 ∧
    (differentiableSearch expModel [1] [[1], [2], [3]] 5 1).indices.length = min 5 3 ∧
    (differentiableSearch expModel [1] [[1], [2], [3]] 5 1).weights.sum = 1 :=
  ⟨by simp, by decide, by norm_num,
    (C3_search_result_contract expModel expModel_pos [1] [[1], [2], [3]] 5 1
      (by simp) (by decide) (by decide) (by norm_num)).1,
    (C3_search_result_contract expModel expModel_pos [1] [[1], [2], [3]] 5 1
      (by simp) (by decide) (by decide) (by norm_num)).2.2.2.1⟩

/-- C5 counterexample: on an empty candidate set with temperature 0 the
checked search reports InvalidConfig, not EmptyCandidateSet, so the claim's
"fails with EmptyCandidateSet exactly when the candidate set is empty" fails
as stated (the claim's own InvalidConfig conjunct takes precedence). -/
theorem C5_counterexample :
    differentiableSearchChecked expModel [] ([] : List (List ℚ)) 1 0 =
      .error .InvalidConfig ∧
    SearchError.InvalidConfig ≠ SearchError.EmptyCandidateSet :=
  ⟨rfl, by decide⟩

/-- C5 (amended): the checked search fails with InvalidConfig exactly when
temperature ≤ 0 (this check precedes the others); when the temperature is
positive it fails with EmptyCandidateSet exactly when the candidate set is
empty, and with DimensionMismatch exactly when some candidate's dimension
differs from the query's; a candidate pool smaller than k is not an error:
all candidates are returned (the indices are a permutation of all candidate
positions) with weights renormalized to sum to 1. -/
theorem C5_search_error_handling (e : ℚ → ℚ) (he : ∀ x, 0 < e x) (q : List ℚ)
    (cands : List (List ℚ)) (k : ℕ) (t : ℚ) :
    (differentiableSearchChecked e q cands k t = .error .InvalidConfig ↔ t ≤ 0) ∧
    (0 < t →
      (differentiableSearchChecked e q cands k t = .error .EmptyCandidateSet ↔
        cands = [])) ∧
    (0 < t → cands ≠ [] →
      (differentiableSearchChecked e q cands k t = .error .DimensionMismatch ↔
        ∃ c ∈ cands, c.length ≠ q.length)) ∧
    (0 < t → cands ≠ [] → (∀ c ∈ cands, c.length = q.length) → cands.length < k →
      differentiableSearchChecked e q cands k t =
        .ok (differentiableSearch e q cands k t) ∧
      (differentiableSearch e q cands k t).indices.Perm (List.range cands.length) ∧
      (differentiableSearch e q cands k t).weights.sum = 1) := by
  unfold differentiableSearchChecked
  by_cases h1 : t ≤ 0
  · rw [if_pos h1]
    refine ⟨iff_of_true rfl h1, ?_, ?_, ?_⟩
    · intro ht
      exact absurd h1 (not_le.mpr ht)
    · intro ht _
      exact absurd h1 (not_le.mpr ht)
    · intro ht _ _ _
      exact absurd h1 (not_le.mpr ht)
  · rw [if_neg h1]
    push_neg at h1
    by_cases h2 : cands = []
    · rw [if_pos h2]
      refine ⟨iff_of_false (by simp) (not_le.mpr h1), ?_, ?_, ?_⟩
      · intro _
        exact iff_of_true rfl h2
      · intro _ hc
        exact absurd h2 hc
      · intro _ hc _ _
        exact absurd h2 hc
    · rw [if_neg h2]
      by_cases h3 : cands.any (fun c => c.length != q.length) = true
      · rw [if_pos h3]
        refine ⟨iff_of_false (by simp) (not_le.mpr h1),
          fun _ => iff_of_false (by simp) h2, ?_, ?_⟩
        · intro _ _
          refine iff_of_true rfl ?_
          rw [List.any_eq_true] at h3
          obtain ⟨c, hcm, hcl⟩ := h3
          exact ⟨c, hcm, bne_iff_ne.mp hcl⟩
        · intro _ _ hdim _
          exfalso
          rw [List.any_eq_true] at h3
          obtain ⟨c, hcm, hcl⟩ := h3
          exact bne_iff_ne.mp hcl (hdim c hcm)
      · rw [if_neg h3]
        have hdim' : ∀ c ∈ cands, c.length = q.length := by
          intro c hcm
          by_contra hne
          exact h3 (List.any_eq_true.mpr ⟨c, hcm, bne_iff_ne.mpr hne⟩)
        refine ⟨iff_of_false (by simp) (not_le.mpr h1),
          fun _ => iff_of_false (by simp) h2, ?_, ?_⟩
        · intro _ _
          refine iff_of_false (by simp) ?_
          push_neg
          exact hdim'
        · intro _ _ _ hkgt
          have hkpos : 0 < k := Nat.lt_of_lt_of_le (List.length_pos.mpr h2) (le_of_lt hkgt)
          exact ⟨rfl, search_perm_of_lt e q cands k t hkgt,
            (searchSpec e he q cands k t h2 hkpos).2.2.2.1⟩

/-- C5 witness: the amended theorem applied with two one-dimensional
candidates, temperature 1 and k = 5: the pool smaller than k yields a
successful result over all candidates with weights summing to 1. -/
theorem C5_search_error_handling_witness :
    (0:ℚ) < 1 ∧ (([[1], [2]] : List (List ℚ)) ≠ []) ∧ ([[1], [2]] : List (List ℚ)).length < 5 ∧
    differentiableSearchChecked expModel [1] [[1], [2]] 5 1 =
      .ok (differentiableSearch expModel [1] [[1], [2]] 5 1) ∧
    (differentiableSearch expModel [1] [[1], [2]] 5 1).weights.sum = 1 := by
  have h := (C5_search_error_handling expModel expModel_pos [1] [[1], [2]] 5 1).2.2.2
    (by norm_num) (by simp) (by decide) (by decide)
  exact ⟨by norm_num, by simp, by decide, h.1, h.2.2⟩



/- ------------------------------------------------------------------ -/
/- Attention layer (C6, C7, C8)                                       -/
/- ------------------------------------------------------------------ -/

/-- C6: on a layer constructed from an AttentionLayerConfig with valid
invariants, and for every valid input (query of length inputDim, neighbors of
length inputDim, edge weights matching the neighbors), the forward output has
length exactly hiddenDim. -/
theorem C6_forward_output_length (e : ℚ → ℚ) (scale : ℚ)
    (inputDim hiddenDim heads : ℕ) (r : ℚ) (f : ℕ → ℕ → ℕ → ℚ)
    (mask : ℕ → ℕ → Bool) (q : List ℚ) (ns : List (List ℚ)) (ws : List ℚ)
    (hi : 0 < inputDim) (hh : 0 < hiddenDim) (hhd : 0 < heads)
    (hdvd : hiddenDim % heads = 0) (hq : q.length = inputDim)
    (hns : ∀ nb ∈ ns, nb.length = inputDim) (hws : ws.length = ns.length) :
    (forward e scale (construct_layer inputDim hiddenDim heads r f) mask q ns ws).length
      = hiddenDim := by
  unfold forward
  split
  · simp [selfAttentionForward, matVec, construct_layer, mkMatrix]
  · simp [matVec, construct_layer, mkMatrix]

/-- C6 witness: the theorem applied to a concrete 4-in 8-hidden 2-head layer
with two neighbors. -/
theorem C6_forward_output_length_witness :
    (0:ℕ) < 4 ∧ (0:ℕ) < 8 ∧ (0:ℕ) < 2 ∧ 8 % 2 = 0 ∧
    ([1, 0, 0, 0] : List ℚ).length = 4 ∧
    (forward expModel 1 (construct_layer 4 8 2 0 (fun _ _ _ => 1)) maskKeepAll
      [1, 0, 0, 0] [[1, 0, 0, 0], [0, 1, 0, 0]] [1, 1]).length = 8 :=
  ⟨by decide, by decide, by decide, by decide, by decide,
    C6_forward_output_length expModel 1 4 8 2 0 (fun _ _ _ => 1) maskKeepAll
      [1, 0, 0, 0] [[1, 0, 0, 0], [0, 1, 0, 0]] [1, 1]
      (by decide) (by decide) (by decide) (by decide) (by decide)
      (by decide) (by decide)⟩

/-- C7 counterexample: a single synthetic neighbor with edge weight 0 does
not reproduce the empty-neighborhood output — with one neighbor the softmax
normalizes its zero score to attention probability 1, so the zero-weighted
neighbor receives all the attention mass instead of contributing nothing.  On
a 1-dimensional layer with identity projections, query [1] and neighbor [0],
the empty neighborhood yields [1] while the zero-weighted neighbor yields
[0]. -/
theorem C7_counterexample :
    forward expModel 1 (constLayer 1 1 1 0) maskKeepAll [1] [[0]] [0] ≠
      forward expModel 1 (constLayer 1 1 1 0) maskKeepAll [1] [] [] := by
  intro h
  have h1 : forward expModel 1 (constLayer 1 1 1 0) maskKeepAll [1] [[0]] [0] = [0] := by
    simp [forward, constLayer, construct_layer, mkMatrix, matVec, dot, headSlice,
      maxList, expModel, addVec, maskKeepAll, List.range_succ]
  have h2 : forward expModel 1 (constLayer 1 1 1 0) maskKeepAll [1] [] [] = [1] := by
    simp [forward, selfAttentionForward, constLayer, construct_layer, mkMatrix,
      matVec, dot, List.range_succ]
  rw [h1, h2] at h
  exact absurd (List.head_eq_of_cons_eq h) (by norm_num)

/-- C7 (amended): an empty neighborhood is a defined edge case, not an error:
forward on empty neighbors and edge weights equals the self-attention-only
path (query through the value and output projections alone); amendment: the
claimed equality with a single zero-edge-weight synthetic neighbor is dropped,
since softmax renormalization gives such a neighbor probability mass 1 rather
than no contribution. -/
theorem C7_empty_neighborhood (e : ℚ → ℚ) (scale : ℚ) (layer : RuvectorLayer)
    (mask : ℕ → ℕ → Bool) (q : List ℚ) :
    forward e scale layer mask q [] [] = selfAttentionForward layer q := by
  unfold forward
  simp

/-- C8: with dropout disabled the forward pass is a pure function of the
layer parameters and the inputs: the injected dropout randomness source (the
mask) has no influence, so identical inputs always produce identical
outputs. -/
theorem C8_forward_deterministic (e : ℚ → ℚ) (scale : ℚ) (layer : RuvectorLayer)
    (hr : layer.dropoutRate = 0) (m1 m2 : ℕ → ℕ → Bool) (q : List ℚ)
    (ns : List (List ℚ)) (ws : List ℚ) :
    forward e scale layer m1 q ns ws = forward e scale layer m2 q ns ws := by
  unfold forward
  split
  · rfl
  · simp only [hr, lt_self_iff_false, if_false]

/-- C8 witness: the spec's concrete scenario — a 4-in 8-hidden 2-head layer
with dropout 0, query [1,0,0,0], two neighbors and unit edge weights —
evaluated under two different dropout masks gives the same output. -/
theorem C8_forward_deterministic_witness :
    (construct_layer 4 8 2 0 (fun _ _ _ => 1)).dropoutRate = 0 ∧
    forward expModel 1 (construct_layer 4 8 2 0 (fun _ _ _ => 1)) maskKeepAll
        [1, 0, 0, 0] [[1, 0, 0, 0], [0, 1, 0, 0]] [1, 1] =
      forward expModel 1 (construct_layer 4 8 2 0 (fun _ _ _ => 1)) maskDropAll
        [1, 0, 0, 0] [[1, 0, 0, 0], [0, 1, 0, 0]] [1, 1] :=
  ⟨rfl, C8_forward_deterministic expModel 1 _ rfl maskKeepAll maskDropAll
    [1, 0, 0, 0] [[1, 0, 0, 0], [0, 1, 0, 0]] [1, 1]⟩


end Ruvector
